import Mathlib

/-!
Verification of the `local-gist` pipeline (src/gist.rs, src/main.rs).

The Rust sources are shallowly embedded:
* pure helpers (`has_next_page`, `should_continue`, `get_url`) become Lean
  functions on the header values they inspect;
* the paginated listing loop of `list_gists` becomes a fuel-indexed
  recursive function over an abstract transport (`Fetch`) and an abstract
  JSON parser (`ParseFn`, standing for `serde_json::from_str::<Vec<Gist>>`),
  returning the result together with the trace of issued requests and
  throttle sleeps;
* `download_gist` and the download part of `handle_download` become
  state-passing functions over an explicit filesystem state with injected
  transport/IO failures;
* the tokio semaphore fan-out of `handle_download` becomes a small-step
  transition system on per-task phases.
-/

set_option linter.unusedVariables false

namespace LocalGist

/-- `GistFile` (src/gist.rs lines 25-33): metadata of one file inside a gist. -/
structure GistFile where
  filename : String
  file_type : String
  language : Option String
  raw_url : String
  size : Nat
deriving DecidableEq

/-- `GistOwner` (src/gist.rs lines 35-57). -/
structure GistOwner where
  login : String
  id : Nat
  node_id : String
  avatar_url : String
  gravatar_id : String
  url : String
  html_url : String
  followers_url : String
  following_url : String
  gists_url : String
  starred_url : String
  subscriptions_url : String
  organizations_url : String
  repos_url : String
  events_url : String
  received_events_url : String
  user_type : String
  site_admin : Bool
  user_view_type : String
deriving DecidableEq

/-- `Gist` (src/gist.rs lines 59-80).  The Rust `HashMap<String, GistFile>`
is embedded as an association list with (by construction) unique keys; the
list order stands for the unspecified iteration order of the map. -/
structure Gist where
  url : String
  forks_url : String
  commits_url : String
  id : String
  node_id : String
  git_pull_url : String
  git_push_url : String
  html_url : String
  files : List (String × GistFile)
  public : Bool
  created_at : String
  updated_at : String
  description : Option String
  comments : Nat
  user : Option GistOwner
  comments_enabled : Bool
  comments_url : String
  owner : GistOwner
  truncated : Bool
deriving DecidableEq

/-- The position/message data of a `serde_json::Error` as used by the code
(`e.line()`, `e.column()` at src/gist.rs lines 182-186). -/
structure SerdeError where
  line : Nat
  column : Nat
  msg : String
deriving DecidableEq

/-- `GistError` (src/gist.rs lines 12-20).  The payloads of the reqwest and
IO variants are embedded as their error messages. -/
inductive GistError where
  | requestError (e : String)
  | ioError (e : String)
  | jsonError (e : SerdeError) (body : String)
deriving DecidableEq

/-- `GITHUB_API_URL` (src/gist.rs line 23). -/
def GITHUB_API_URL : String := "https://api.github.com"

/-- The header values of one listing response that the code inspects
(`link`, `x-ratelimit-limit`, `x-ratelimit-remaining`), each already passed
through `to_str().ok()`, plus the response body text. -/
structure PageResponse where
  linkHeader : Option String
  rateLimit : Option String
  rateRemaining : Option String
  body : String
deriving DecidableEq

/-- Rust `str::contains` on substrings, modelled on the character lists. -/
def strContains (s pat : String) : Bool :=
  decide (pat.toList <:+: s.toList)

/-- `has_next_page` (src/gist.rs lines 103-109): the raw string
`r#"rel="next"#` is the 9-character marker `rel="next`. -/
def has_next_page (link : Option String) : Bool :=
  (link.map (fun l => strContains l "rel=\"next")).getD false

/-- `get_url` (src/gist.rs lines 111-116). -/
def get_url (username : String) (per_page page : Nat) : String :=
  GITHUB_API_URL ++ "/users/" ++ username ++ "/gists?per_page=" ++
    toString per_page ++ "&page=" ++ toString page

/-- `get_rate_limit` (src/gist.rs lines 118-132): logs both header values
and returns the `x-ratelimit-remaining` one. -/
def get_rate_limit (rateLimit rateRemaining : Option String) : Option String :=
  rateRemaining

/-- Rust `str::parse::<u32>()`, modelled on the character list: an
optional leading `+`, then at least one ASCII digit, value below
`2 ^ 32` (overflow is a parse error). -/
def parseU32 (s : String) : Option Nat :=
  let chars := match s.toList with
    | '+' :: rest => rest
    | l => l
  if chars.isEmpty then none
  else if chars.all Char.isDigit then
    let n := chars.foldl (fun a c => a * 10 + (c.toNat - 48)) 0
    if n < 2 ^ 32 then some n else none
  else none

/-- `should_continue` (src/gist.rs lines 134-138). -/
def should_continue (remaining : Option String) : Bool :=
  ((remaining.bind parseU32).map (fun n => decide (0 < n))).getD false

/-- Observable events of one `list_gists` run: a page request being issued
(src/gist.rs line 156) and the throttle sleep (line 169). -/
inductive Event where
  | request (url : String)
  | sleep (ms : Nat)
deriving DecidableEq

/-- The transport: `(per_page, page) ↦` response headers/body, or a reqwest
error (send/read failure). -/
abbrev Fetch := Nat → Nat → Except String PageResponse

/-- The JSON parser `serde_json::from_str::<Vec<Gist>>`, abstract. -/
abbrev ParseFn := String → Except SerdeError (List Gist)

/-- The `loop` of `list_gists` (src/gist.rs lines 153-206), embedded with a
fuel bound (`none` = the fuel ran out before the loop broke).  Besides the
result it returns the trace of requests and sleeps, in program order: the
request is issued first, the 3000 ms throttle sleep (if any) precedes body
parsing, exactly as in the source. -/
def list_gists_loop (fetch : Fetch) (parse : ParseFn) (username : String)
    (limit : Option Nat) (per_page : Nat) (all_gists : List Gist)
    (page : Nat) (fuel : Nat) :
    Option (Except GistError (List Gist) × List Event) :=
  match fuel with
  | 0 => none
  | fuel + 1 =>
    match fetch per_page page with
    | .error e => some (.error (.requestError e), [.request (get_url username per_page page)])
    | .ok resp =>
      let hasNext : Bool := has_next_page resp.linkHeader
      let rate_remaining := get_rate_limit resp.rateLimit resp.rateRemaining
      let pre : List Event :=
        .request (get_url username per_page page) ::
          (if should_continue rate_remaining then [] else [.sleep 3000])
      match parse resp.body with
      | .error e => some (.error (.jsonError e resp.body), pre)
      | .ok gists =>
        let acc := all_gists ++ gists
        match limit with
        | some l =>
          if l ≤ acc.length then
            some (.ok (acc.take l), pre)
          else if hasNext then
            (list_gists_loop fetch parse username limit per_page acc (page + 1) fuel).map
              (fun rt => (rt.1, pre ++ rt.2))
          else
            some (.ok acc, pre)
        | none =>
          if hasNext then
            (list_gists_loop fetch parse username limit per_page acc (page + 1) fuel).map
              (fun rt => (rt.1, pre ++ rt.2))
          else
            some (.ok acc, pre)

/-- `list_gists` (src/gist.rs lines 145-209): page size defaults the limit
to 100, accumulation starts empty at page 1.  (The client construction of
line 146 is folded into the abstract transport.) -/
def list_gists (fetch : Fetch) (parse : ParseFn) (username : String)
    (limit : Option Nat) (fuel : Nat) :
    Option (Except GistError (List Gist) × List Event) :=
  list_gists_loop fetch parse username limit (limit.getD 100) [] 1 fuel

/-- The request/sleep events the loop produces while processing one page. -/
def pageBlock (fetch : Fetch) (username : String) (per_page p : Nat) : List Event :=
  match fetch per_page p with
  | .error _ => [.request (get_url username per_page p)]
  | .ok resp =>
    .request (get_url username per_page p) ::
      (if should_continue (get_rate_limit resp.rateLimit resp.rateRemaining) then []
       else [.sleep 3000])

/-- Number of items the parser extracts from page `p` (0 on any failure). -/
def pageItems (fetch : Fetch) (parse : ParseFn) (per_page p : Nat) : Nat :=
  match fetch per_page p with
  | .error _ => 0
  | .ok resp =>
    match parse resp.body with
    | .error _ => 0
    | .ok gists => gists.length

/-- Total number of items parsed from the `n` pages `page, …, page + n - 1`. -/
def itemsThrough (fetch : Fetch) (parse : ParseFn) (per_page page n : Nat) : Nat :=
  ((List.range n).map (fun i => pageItems fetch parse per_page (page + i))).sum

/-- Page `p` was processed without triggering any stop condition of the
loop: response and body fine, continuation signal present, and (when a
limit is set) the accumulated count still below the limit afterwards. -/
def pageContinues (fetch : Fetch) (parse : ParseFn) (limit : Option Nat)
    (per_page accBefore p : Nat) : Prop :=
  ∃ resp gists, fetch per_page p = .ok resp ∧ parse resp.body = .ok gists ∧
    has_next_page resp.linkHeader = true ∧
    ∀ l, limit = some l → accBefore + gists.length < l

/-- Processing page `p` triggered a stop: transport error, parse error,
limit reached, or continuation signal absent. -/
def pageStops (fetch : Fetch) (parse : ParseFn) (limit : Option Nat)
    (per_page accBefore p : Nat) : Prop :=
  (∃ e, fetch per_page p = .error e) ∨
  (∃ resp e, fetch per_page p = .ok resp ∧ parse resp.body = .error e) ∨
  (∃ resp gists, fetch per_page p = .ok resp ∧ parse resp.body = .ok gists ∧
    ((∃ l, limit = some l ∧ l ≤ accBefore + gists.length) ∨
      has_next_page resp.linkHeader = false))

lemma itemsThrough_zero (fetch : Fetch) (parse : ParseFn) (per_page page : Nat) :
    itemsThrough fetch parse per_page page 0 = 0 := rfl

lemma itemsThrough_succ (fetch : Fetch) (parse : ParseFn) (per_page page n : Nat) :
    itemsThrough fetch parse per_page page (n + 1) =
      pageItems fetch parse per_page page +
        itemsThrough fetch parse per_page (page + 1) n := by
  unfold itemsThrough
  rw [List.range_succ_eq_map]
  simp only [List.map_cons, List.sum_cons, List.map_map, Nat.add_zero]
  congr 1
  refine congrArg List.sum ?_
  apply List.map_congr_left
  intro a _
  simp only [Function.comp_apply]
  have h1 : page + Nat.succ a = page + 1 + a := by omega
  rw [h1]

lemma range_flatMap_succ_left {β : Type} (f : Nat → List β) (k : Nat) :
    (List.range (k + 1)).flatMap f = f 0 ++ (List.range k).flatMap (fun i => f (i + 1)) := by
  rw [List.range_succ_eq_map]
  rw [List.flatMap_cons, List.flatMap_map]

lemma flatMap_range_one {β : Type} (f : Nat → List β) :
    (List.range 1).flatMap f = f 0 := by
  have h : List.range 1 = [0] := rfl
  rw [h, List.flatMap_cons, List.flatMap_nil, List.append_nil]

lemma one_page_trace (fetch : Fetch) (username : String) (per_page page : Nat)
    (resp : PageResponse) (hfetch : fetch per_page page = .ok resp) :
    (Event.request (get_url username per_page page) ::
      (if should_continue (get_rate_limit resp.rateLimit resp.rateRemaining)
       then [] else [Event.sleep 3000])) =
    (List.range 1).flatMap (fun i => pageBlock fetch username per_page (page + i)) := by
  rw [flatMap_range_one]
  simp [pageBlock, hfetch]

lemma one_page_trace_err (fetch : Fetch) (username : String) (per_page page : Nat)
    (e : String) (hfetch : fetch per_page page = .error e) :
    [Event.request (get_url username per_page page)] =
    (List.range 1).flatMap (fun i => pageBlock fetch username per_page (page + i)) := by
  rw [flatMap_range_one]
  simp [pageBlock, hfetch]

/-- Request events, for counting issued page requests in a trace. -/
def isRequest : Event → Bool
  | .request _ => true
  | .sleep _ => false

/-- A fixed owner record used by concrete test data. -/
def sampleOwner : GistOwner :=
  ⟨"octocat", 1, "n1", "a1", "", "u1", "h1", "fo1", "fo2", "gi1", "st1", "su1",
    "or1", "re1", "ev1", "rc1", "User", false, "public"⟩

/-- A file entry used by concrete test data. -/
def sampleFile (name : String) : GistFile :=
  ⟨name, "text/plain", none, "https://gist.example/raw/" ++ name, 10⟩

/-- A gist used by concrete test data. -/
def sampleGist (id : String) (files : List (String × GistFile)) : Gist :=
  ⟨"u", "fk", "cm", id, "nd", "gp", "gq", "hu", files, true, "2024-01-01",
    "2024-01-02", none, 0, none, true, "cu", sampleOwner, false⟩

/-- A `link` header value carrying the continuation marker. -/
def nextLink : String := "<https://api.github.com/gists?page=2>; rel=\"next\""

/-- The slice of the full server-side listing that an honest paginated
server returns for `(per_page, page)`, pages starting at 1. -/
def pageSlice (allItems : List Gist) (per_page page : Nat) : List Gist :=
  (allItems.drop ((page - 1) * per_page)).take per_page

/-- An honest paginated server over a fixed listing `allItems`: it honours
`per_page`, advertises `rel="next"` exactly while more items remain, always
reports remaining rate budget, and serialises each slice with `enc`. -/
def honestFetch (enc : List Gist → String) (allItems : List Gist) : Fetch :=
  fun per_page page =>
    .ok { linkHeader := if page * per_page < allItems.length then some nextLink else none
          rateLimit := some "5000"
          rateRemaining := some "50"
          body := enc (pageSlice allItems per_page page) }

/-- Concrete two-page server for exercising the pagination theorems. -/
def twoPageFetch : Fetch := fun _ page =>
  if page = 1 then .ok ⟨some nextLink, some "60", some "50", "P1"⟩
  else .ok ⟨none, some "60", some "49", "P2"⟩

/-- Concrete parser for `twoPageFetch` bodies. -/
def twoPageParse : ParseFn := fun s =>
  if s = "P1" then .ok [sampleGist "g1" []] else .ok [sampleGist "g2" []]

/-- A server whose sole response has no rate headers and no continuation. -/
def throttledFetch : Fetch := fun _ _ => .ok ⟨none, none, none, "[]"⟩

/-- Parser accepting the empty listing body. -/
def emptyParse : ParseFn := fun _ => .ok []

/-- A server returning a malformed body. -/
def badBodyFetch : Fetch := fun _ _ => .ok ⟨none, none, some "50", "oops"⟩

/-- A parser that always fails at line 1, column 2. -/
def failingParse : ParseFn := fun _ => .error ⟨1, 2, "expected value"⟩

/-- Serialiser used by the honest-server witness: the listing is either
empty or the single gist `g1`. -/
def oneGistEnc : List Gist → String := fun gs =>
  if gs.length = 0 then "[]" else "[one]"

/-- Parser inverting `oneGistEnc`. -/
def oneGistParse : ParseFn := fun s =>
  if s = "[one]" then .ok [sampleGist "g1" []] else .ok []

/-- Explicit filesystem state: created directories and written files
(path ↦ contents, later writes overwrite earlier ones). -/
structure FsState where
  dirs : List String
  files : List (String × String)
deriving DecidableEq

/-- The empty filesystem. -/
def emptyFs : FsState := ⟨[], []⟩

/-- `std::fs::write` (src/gist.rs line 231): overwrite semantics. -/
def fsWrite (fs : FsState) (path content : String) : FsState :=
  { fs with files := (path, content) :: fs.files.filter (fun pc => pc.1 != path) }

/-- Read back a written file. -/
def fsRead (fs : FsState) (path : String) : Option String :=
  (fs.files.find? (fun pc => pc.1 == path)).map Prod.snd

/-- `std::fs::create_dir_all` (src/gist.rs line 220), idempotent. -/
def create_dir_all (fs : FsState) (path : String) : FsState :=
  { fs with dirs := path :: fs.dirs }

/-- Transport for raw file contents: `raw_url ↦` body or reqwest error. -/
abbrev RawFetch := String → Except String String

/-- Injected `std::fs::write` failure: `path ↦ some errorMessage` makes the
write at `path` fail. -/
abbrev WriteErr := String → Option String

/-- Injected `create_dir_all` failure. -/
abbrev DirErr := String → Option String

/-- The per-file loop of `download_gist` (src/gist.rs lines 223-232):
fetch each file's raw content and write it under `base_dir`, stopping at
the first fetch or write failure. -/
def download_files (fetchRaw : RawFetch) (writeErr : WriteErr) (base_dir : String) :
    List (String × GistFile) → FsState → Except GistError Unit × FsState
  | [], fs => (.ok (), fs)
  | (filename, file) :: rest, fs =>
    match fetchRaw file.raw_url with
    | .error e => (.error (.requestError e), fs)
    | .ok response =>
      let file_path := base_dir ++ "/" ++ filename
      match writeErr file_path with
      | some e => (.error (.ioError e), fs)
      | none => download_files fetchRaw writeErr base_dir rest (fsWrite fs file_path response)

/-- `download_gist` (src/gist.rs lines 215-235): create `output_path/id`,
then download every member file into it.  (The client construction of line
216 is folded into the abstract transport.) -/
def download_gist (fetchRaw : RawFetch) (writeErr : WriteErr) (dirErr : DirErr)
    (gist : Gist) (output_path : String) (fs : FsState) :
    Except GistError Unit × FsState :=
  let base_dir := output_path ++ "/" ++ gist.id
  match dirErr base_dir with
  | some e => (.error (.ioError e), fs)
  | none => download_files fetchRaw writeErr base_dir gist.files (create_dir_all fs base_dir)

/-- What `handle_download` reports to the logger: the per-task outcome
logs (src/main.rs lines 74 and 78) and the final completion message
(src/main.rs lines 93-97) carrying `number_of_files` and the folder. -/
inductive DlEvent where
  | downloadFailed (id : String) (err : GistError)
  | downloaded (id : String)
  | complete (numberOfFiles : Nat) (folder : String)
deriving DecidableEq

/-- One spawned download task (src/main.rs lines 70-79): run
`download_gist`, log failure and return early, or log success. -/
def download_task (fetchRaw : RawFetch) (writeErr : WriteErr) (dirErr : DirErr)
    (folder : String) (gist : Gist) (fs : FsState) : FsState × DlEvent :=
  match download_gist fetchRaw writeErr dirErr gist folder fs with
  | (.error e, fs1) => (fs1, .downloadFailed gist.id e)
  | (.ok _, fs1) => (fs1, .downloaded gist.id)

/-- The batch part of `handle_download` (src/main.rs lines 52-99), after
`list_gists` returned `gists`: `number_of_files` is computed *before* any
download; every task is spawned and joined (`res?` only propagates
panics/aborts, which the model excludes), then the completion message is
logged.  The tasks are modelled in spawn order; each task's outcome is
fs-independent, so this serialization loses no generality for the claims
proved below. -/
def handle_download (fetchRaw : RawFetch) (writeErr : WriteErr) (dirErr : DirErr)
    (folder : String) (gists : List Gist) (fs : FsState) : FsState × List DlEvent :=
  let number_of_files := (gists.map (fun g => g.files.length)).sum
  let run := gists.foldl
    (fun (acc : FsState × List DlEvent) g =>
      let step := download_task fetchRaw writeErr dirErr folder g acc.1
      (step.1, acc.2 ++ [step.2]))
    (fs, [])
  (run.1, run.2 ++ [.complete number_of_files folder])

/-- The outcome event of one item, as a function of that item alone. -/
def item_event (fetchRaw : RawFetch) (writeErr : WriteErr) (dirErr : DirErr)
    (folder : String) (g : Gist) : DlEvent :=
  match (download_gist fetchRaw writeErr dirErr g folder emptyFs).fst with
  | .error e => .downloadFailed g.id e
  | .ok _ => .downloaded g.id

/-- An outcome event (success or failure), as opposed to the final
completion message. -/
def isOutcome : DlEvent → Bool
  | .downloadFailed _ _ => true
  | .downloaded _ => true
  | .complete _ _ => false

/-- Raw-content transport where exactly the files of gist `gBad` fail. -/
def rawFetchFailFor (badName : String) : RawFetch := fun url =>
  if url = "https://gist.example/raw/" ++ badName then .error "connection reset"
  else .ok ("contents of " ++ url)

/-- No injected write failures. -/
def noWriteErr : WriteErr := fun _ => none

/-- No injected directory-creation failures. -/
def noDirErr : DirErr := fun _ => none

/-- The five-gist batch of spec scenario 4: `g3` has three files whose
fetches fail, the other four gists have one file each. -/
def fiveGists : List Gist :=
  [sampleGist "g1" [("a.txt", sampleFile "a.txt")],
   sampleGist "g2" [("b.txt", sampleFile "b.txt")],
   sampleGist "g3" [("x.txt", sampleFile "bad"), ("y.txt", sampleFile "bad"),
     ("z.txt", sampleFile "bad")],
   sampleGist "g4" [("c.txt", sampleFile "c.txt")],
   sampleGist "g5" [("d.txt", sampleFile "d.txt")]]

/-- Phase of one spawned download task.  `pending` covers both "not yet
scheduled" and "suspended inside `acquire`" (src/main.rs line 71);
`running b` is the body after `acquire` returned (`b` = the task actually
holds a permit, i.e. `acquire` returned `Ok`); `done` is task exit, where
the bound `_permit` is dropped. -/
inductive TaskPhase where
  | pending
  | running (hasPermit : Bool)
  | done
deriving DecidableEq

/-- State of the batch: one phase per spawned task plus the semaphore's
free-permit count. -/
structure BatchState where
  tasks : List TaskPhase
  available : Nat
deriving DecidableEq

/-- Initial state: `n` pending tasks, semaphore of capacity `C`
(src/main.rs line 58). -/
def initState (C n : Nat) : BatchState := ⟨List.replicate n .pending, C⟩

/-- Interleaving semantics of the spawned tasks.  `acquire` models
`sem.acquire().await` returning `Ok` (a permit is taken, so it requires a
free one); `acquireFail` models the `Err(AcquireError)` return — possible
only when the semaphore is closed (`canFail`), and the task proceeds into
its body *without* a permit, because the code never inspects `_permit`;
`finish` models task exit, dropping `_permit` and so returning the permit
iff one was held. -/
inductive Step (canFail : Bool) : BatchState → BatchState → Prop
  | acquire (i : Nat) (s : BatchState)
      (hi : s.tasks.get? i = some .pending) (hav : 0 < s.available) :
      Step canFail s ⟨s.tasks.set i (.running true), s.available - 1⟩
  | acquireFail (i : Nat) (s : BatchState)
      (hfail : canFail = true) (hi : s.tasks.get? i = some .pending) :
      Step canFail s ⟨s.tasks.set i (.running false), s.available⟩
  | finish (i : Nat) (b : Bool) (s : BatchState)
      (hi : s.tasks.get? i = some (.running b)) :
      Step canFail s ⟨s.tasks.set i .done, s.available + (if b then 1 else 0)⟩

/-- States reachable from the start of a batch with capacity `C` and `n`
tasks. -/
def Reachable (canFail : Bool) (C n : Nat) (s : BatchState) : Prop :=
  Relation.ReflTransGen (Step canFail) (initState C n) s

/-- Tasks currently inside the download body (doing network/filesystem
work). -/
def runningCount (s : BatchState) : Nat :=
  s.tasks.countP (fun t => match t with | .running _ => true | _ => false)

/-- Tasks currently holding a permit. -/
def permitHolders (s : BatchState) : Nat :=
  s.tasks.countP (fun t => t == .running true)

lemma pageItems_of_ok {fetch : Fetch} {parse : ParseFn} {per_page p : Nat}
    {resp : PageResponse} {gists : List Gist}
    (hfetch : fetch per_page p = .ok resp) (hparse : parse resp.body = .ok gists) :
    pageItems fetch parse per_page p = gists.length := by
  simp [pageItems, hfetch, hparse]

/-- Assembling the trace characterization for one more page in front of an
already characterized tail run. -/
lemma loop_trace_step (fetch : Fetch) (parse : ParseFn) (username : String)
    (limit : Option Nat) (per_page page n : Nat) (acc gists : List Gist)
    (resp : PageResponse) (tr2 : List Event)
    (hfetch : fetch per_page page = .ok resp)
    (hparse : parse resp.body = .ok gists)
    (hnext : has_next_page resp.linkHeader = true)
    (hlimcond : ∀ l, limit = some l → acc.length + gists.length < l)
    (htr2 : tr2 = (List.range (n + 1)).flatMap
      (fun i => pageBlock fetch username per_page (page + 1 + i)))
    (hcont2 : ∀ i, i + 1 < n + 1 →
      pageContinues fetch parse limit per_page
        ((acc ++ gists).length + itemsThrough fetch parse per_page (page + 1) i) (page + 1 + i))
    (hstop2 : pageStops fetch parse limit per_page
        ((acc ++ gists).length + itemsThrough fetch parse per_page (page + 1) n) (page + 1 + n)) :
    ∃ k, 1 ≤ k ∧
      pageBlock fetch username per_page page ++ tr2 =
        (List.range k).flatMap (fun i => pageBlock fetch username per_page (page + i)) ∧
      (∀ i, i + 1 < k → pageContinues fetch parse limit per_page
          (acc.length + itemsThrough fetch parse per_page page i) (page + i)) ∧
      pageStops fetch parse limit per_page
        (acc.length + itemsThrough fetch parse per_page page (k - 1)) (page + (k - 1)) := by
  have hlen : (acc ++ gists).length = acc.length + gists.length := List.length_append acc gists
  have hpi : pageItems fetch parse per_page page = gists.length := pageItems_of_ok hfetch hparse
  refine ⟨n + 2, by omega, ?_, ?_, ?_⟩
  · rw [range_flatMap_succ_left (fun i => pageBlock fetch username per_page (page + i)) (n + 1)]
    have hfun : (fun i => pageBlock fetch username per_page (page + (i + 1))) =
        (fun i => pageBlock fetch username per_page (page + 1 + i)) := by
      funext i
      have : page + (i + 1) = page + 1 + i := by omega
      rw [this]
    rw [hfun, ← htr2, Nat.add_zero]
  · intro i hi
    cases i with
    | zero =>
      refine ⟨resp, gists, hfetch, hparse, hnext, ?_⟩
      intro l hl
      have := hlimcond l hl
      simpa [itemsThrough_zero] using this
    | succ j =>
      have hj := hcont2 j (by omega)
      rw [itemsThrough_succ, hpi]
      have h1 : page + (j + 1) = page + 1 + j := by omega
      have h2 : acc.length + (gists.length + itemsThrough fetch parse per_page (page + 1) j) =
          (acc ++ gists).length + itemsThrough fetch parse per_page (page + 1) j := by
        rw [hlen]; omega
      rw [h1, h2]
      exact hj
  · have h1 : n + 2 - 1 = n + 1 := by omega
    rw [h1, itemsThrough_succ, hpi]
    have h2 : page + (n + 1) = page + 1 + n := by omega
    have h3 : acc.length + (gists.length + itemsThrough fetch parse per_page (page + 1) n) =
        (acc ++ gists).length + itemsThrough fetch parse per_page (page + 1) n := by
      rw [hlen]; omega
    rw [h2, h3]
    exact hstop2

/-- The full characterization of one (terminating) run of the listing
loop: the trace is the concatenation of the per-page blocks of `k ≥ 1`
consecutive pages; every page but the last was processed with the
continuation signal present and the limit not yet reached; the last page
triggered a stop condition. -/
lemma list_gists_loop_trace (fetch : Fetch) (parse : ParseFn) (username : String)
    (limit : Option Nat) (per_page : Nat) :
    ∀ fuel page acc res tr,
      list_gists_loop fetch parse username limit per_page acc page fuel = some (res, tr) →
      ∃ k, 1 ≤ k ∧
        tr = (List.range k).flatMap (fun i => pageBlock fetch username per_page (page + i)) ∧
        (∀ i, i + 1 < k →
          pageContinues fetch parse limit per_page
            (acc.length + itemsThrough fetch parse per_page page i) (page + i)) ∧
        pageStops fetch parse limit per_page
          (acc.length + itemsThrough fetch parse per_page page (k - 1)) (page + (k - 1)) := by
  intro fuel
  induction fuel with
  | zero => intro page acc res tr h; simp [list_gists_loop] at h
  | succ fuel ih =>
    intro page acc res tr h
    rw [list_gists_loop] at h
    cases hfetch : fetch per_page page with
    | error e =>
      rw [hfetch] at h
      simp only [Option.some.injEq, Prod.mk.injEq] at h
      refine ⟨1, le_refl 1, ?_, fun i hi => by omega, Or.inl ⟨e, hfetch⟩⟩
      rw [← h.2]
      exact one_page_trace_err fetch username per_page page e hfetch
    | ok resp =>
      rw [hfetch] at h
      simp only at h
      cases hparse : parse resp.body with
      | error e =>
        simp only [hparse] at h
        simp only [Option.some.injEq, Prod.mk.injEq] at h
        refine ⟨1, le_refl 1, ?_, fun i hi => by omega,
          Or.inr (Or.inl ⟨resp, e, hfetch, hparse⟩)⟩
        rw [← h.2]
        exact one_page_trace fetch username per_page page resp hfetch
      | ok gists =>
        simp only [hparse] at h
        have hlen : (acc ++ gists).length = acc.length + gists.length :=
          List.length_append acc gists
        cases limit with
        | some l =>
          by_cases hl : l ≤ (acc ++ gists).length
          · simp only [if_pos hl] at h
            simp only [Option.some.injEq, Prod.mk.injEq] at h
            refine ⟨1, le_refl 1, ?_, fun i hi => by omega,
              Or.inr (Or.inr ⟨resp, gists, hfetch, hparse, Or.inl ⟨l, rfl, ?_⟩⟩)⟩
            · rw [← h.2]
              exact one_page_trace fetch username per_page page resp hfetch
            · have h0 : itemsThrough fetch parse per_page page (1 - 1) = 0 := rfl
              omega
          · simp only [if_neg hl] at h
            cases hnext : has_next_page resp.linkHeader with
            | false =>
              rw [hnext] at h
              simp only [Bool.false_eq_true, if_false, Option.some.injEq, Prod.mk.injEq] at h
              refine ⟨1, le_refl 1, ?_, fun i hi => by omega,
                Or.inr (Or.inr ⟨resp, gists, hfetch, hparse, Or.inr hnext⟩)⟩
              rw [← h.2]
              exact one_page_trace fetch username per_page page resp hfetch
            | true =>
              rw [hnext] at h
              simp only [if_true] at h
              rw [Option.map_eq_some'] at h
              obtain ⟨⟨res2, tr2⟩, hrec, heq⟩ := h
              rw [Prod.mk.injEq] at heq
              obtain ⟨hres, htr⟩ := heq
              obtain ⟨k2, hk2, htr2, hcont2, hstop2⟩ := ih (page + 1) (acc ++ gists) res2 tr2 hrec
              obtain ⟨n, rfl⟩ : ∃ n, k2 = n + 1 := ⟨k2 - 1, by omega⟩
              have hstep := loop_trace_step fetch parse username (some l) per_page page n acc
                gists resp tr2 hfetch hparse hnext
                (by intro l2 hl2
                    have h12 : l = l2 := Option.some.inj hl2
                    omega)
                htr2 hcont2 (by simpa using hstop2)
              rw [← htr]
              have hpreblock :
                  (Event.request (get_url username per_page page) ::
                    (if should_continue (get_rate_limit resp.rateLimit resp.rateRemaining)
                     then [] else [Event.sleep 3000])) =
                  pageBlock fetch username per_page page := by
                simp [pageBlock, hfetch]
              rw [hpreblock]
              exact hstep
        | none =>
          cases hnext : has_next_page resp.linkHeader with
          | false =>
            rw [hnext] at h
            simp only [Bool.false_eq_true, if_false, Option.some.injEq, Prod.mk.injEq] at h
            refine ⟨1, le_refl 1, ?_, fun i hi => by omega,
              Or.inr (Or.inr ⟨resp, gists, hfetch, hparse, Or.inr hnext⟩)⟩
            rw [← h.2, flatMap_range_one]
            simp [pageBlock, hfetch]
          | true =>
            rw [hnext] at h
            simp only [if_true] at h
            rw [Option.map_eq_some'] at h
            obtain ⟨⟨res2, tr2⟩, hrec, heq⟩ := h
            rw [Prod.mk.injEq] at heq
            obtain ⟨hres, htr⟩ := heq
            obtain ⟨k2, hk2, htr2, hcont2, hstop2⟩ := ih (page + 1) (acc ++ gists) res2 tr2 hrec
            obtain ⟨n, rfl⟩ : ∃ n, k2 = n + 1 := ⟨k2 - 1, by omega⟩
            have hstep := loop_trace_step fetch parse username none per_page page n acc
              gists resp tr2 hfetch hparse hnext
              (by intro l2 hl2; cases hl2)
              htr2 hcont2 (by simpa using hstop2)
            rw [← htr]
            have hpreblock :
                (Event.request (get_url username per_page page) ::
                  (if should_continue (get_rate_limit resp.rateLimit resp.rateRemaining)
                   then [] else [Event.sleep 3000])) =
                pageBlock fetch username per_page page := by
              simp [pageBlock, hfetch]
            rw [hpreblock]
            exact hstep

lemma countP_pageBlock (fetch : Fetch) (username : String) (per_page p : Nat) :
    (pageBlock fetch username per_page p).countP isRequest = 1 := by
  unfold pageBlock
  cases h : fetch per_page p with
  | error e => simp [isRequest]
  | ok resp =>
    by_cases hc : should_continue (get_rate_limit resp.rateLimit resp.rateRemaining) <;>
      simp [hc, isRequest, List.countP_cons]

lemma countP_blocks (fetch : Fetch) (username : String) (per_page : Nat) :
    ∀ k page, ((List.range k).flatMap
        (fun i => pageBlock fetch username per_page (page + i))).countP isRequest = k := by
  intro k
  induction k with
  | zero => intro page; simp
  | succ k ihk =>
    intro page
    rw [List.range_succ, List.flatMap_append, List.countP_append, ihk]
    simp [countP_pageBlock]

lemma sleep_mem_pageBlock (fetch : Fetch) (username : String) (per_page p : Nat) :
    Event.sleep 3000 ∈ pageBlock fetch username per_page p ↔
      ∃ resp, fetch per_page p = .ok resp ∧
        should_continue (get_rate_limit resp.rateLimit resp.rateRemaining) = false := by
  unfold pageBlock
  cases hf : fetch per_page p with
  | error e => simp
  | ok resp =>
    by_cases hc : should_continue (get_rate_limit resp.rateLimit resp.rateRemaining) <;>
      simp [hc]

lemma loop_jsonError (fetch : Fetch) (parse : ParseFn) (username : String)
    (limit : Option Nat) (per_page : Nat) :
    ∀ fuel page acc res tr e body,
      list_gists_loop fetch parse username limit per_page acc page fuel = some (res, tr) →
      res = .error (.jsonError e body) →
      ∃ p resp, fetch per_page p = .ok resp ∧ parse resp.body = .error e ∧
        body = resp.body := by
  intro fuel
  induction fuel with
  | zero => intro page acc res tr e body h _; simp [list_gists_loop] at h
  | succ fuel ih =>
    intro page acc res tr e body h hres
    rw [list_gists_loop] at h
    cases hfetch : fetch per_page page with
    | error e2 =>
      rw [hfetch] at h
      simp only [Option.some.injEq, Prod.mk.injEq] at h
      rw [← h.1] at hres
      simp at hres
    | ok resp =>
      simp only [hfetch] at h
      cases hparse : parse resp.body with
      | error e2 =>
        simp only [hparse, Option.some.injEq, Prod.mk.injEq] at h
        rw [← h.1] at hres
        have h1 : GistError.jsonError e2 resp.body = GistError.jsonError e body := by
          injection hres
        injection h1 with ha hb
        refine ⟨page, resp, hfetch, ?_, hb.symm⟩
        rw [← ha]
        exact hparse
      | ok gists =>
        simp only [hparse] at h
        cases limit with
        | some l =>
          by_cases hl : l ≤ (acc ++ gists).length
          · simp only [if_pos hl, Option.some.injEq, Prod.mk.injEq] at h
            rw [← h.1] at hres
            simp at hres
          · simp only [if_neg hl] at h
            cases hnext : has_next_page resp.linkHeader with
            | false =>
              rw [hnext] at h
              simp only [Bool.false_eq_true, if_false, Option.some.injEq, Prod.mk.injEq] at h
              rw [← h.1] at hres
              simp at hres
            | true =>
              rw [hnext] at h
              simp only [if_true] at h
              rw [Option.map_eq_some'] at h
              obtain ⟨⟨res2, tr2⟩, hrec, heq⟩ := h
              rw [Prod.mk.injEq] at heq
              exact ih (page + 1) (acc ++ gists) res2 tr2 e body hrec (heq.1.trans hres)
        | none =>
          cases hnext : has_next_page resp.linkHeader with
          | false =>
            rw [hnext] at h
            simp only [Bool.false_eq_true, if_false, Option.some.injEq, Prod.mk.injEq] at h
            rw [← h.1] at hres
            simp at hres
          | true =>
            rw [hnext] at h
            simp only [if_true] at h
            rw [Option.map_eq_some'] at h
            obtain ⟨⟨res2, tr2⟩, hrec, heq⟩ := h
            rw [Prod.mk.injEq] at heq
            exact ih (page + 1) (acc ++ gists) res2 tr2 e body hrec (heq.1.trans hres)

/-- C2: a terminating `list_gists` run requests `k ≥ 1` consecutive pages
starting at page 1; every page but the last was processed with the
continuation marker (`rel="next"` in the `link` header) present and, when
a limit is set, the accumulated item count still below the limit; the
last processed page triggered a stop (continuation absent, limit reached,
or a transport/parse failure, which also ends the loop).  In particular
no page request is ever issued after the accumulated count reaches the
limit. -/
theorem pagination_stop_spec (fetch : Fetch) (parse : ParseFn) (username : String)
    (limit : Option Nat) (fuel : Nat) (res : Except GistError (List Gist))
    (tr : List Event)
    (h : list_gists fetch parse username limit fuel = some (res, tr)) :
    ∃ k, 1 ≤ k ∧
      tr = (List.range k).flatMap
        (fun i => pageBlock fetch username (limit.getD 100) (1 + i)) ∧
      tr.countP isRequest = k ∧
      (∀ i, i + 1 < k →
        pageContinues fetch parse limit (limit.getD 100)
          (itemsThrough fetch parse (limit.getD 100) 1 i) (1 + i)) ∧
      pageStops fetch parse limit (limit.getD 100)
        (itemsThrough fetch parse (limit.getD 100) 1 (k - 1)) (1 + (k - 1)) := by
  obtain ⟨k, hk, htr, hcont, hstop⟩ :=
    list_gists_loop_trace fetch parse username limit (limit.getD 100) fuel 1 [] res tr h
  refine ⟨k, hk, htr, ?_, ?_, ?_⟩
  · rw [htr]
    exact countP_blocks fetch username (limit.getD 100) k 1
  · intro i hi
    simpa using hcont i hi
  · simpa using hstop

/-- C2 witness: the two-page server is requested exactly twice (pages 1
and 2) and the second page's missing continuation marker stops the loop. -/
theorem pagination_stop_witness :
    ∃ k, 1 ≤ k ∧
      [Event.request (get_url "octocat" 100 1), Event.request (get_url "octocat" 100 2)] =
        (List.range k).flatMap (fun i => pageBlock twoPageFetch "octocat" 100 (1 + i)) ∧
      ([Event.request (get_url "octocat" 100 1),
        Event.request (get_url "octocat" 100 2)]).countP isRequest = k ∧
      (∀ i, i + 1 < k →
        pageContinues twoPageFetch twoPageParse none 100
          (itemsThrough twoPageFetch twoPageParse 100 1 i) (1 + i)) ∧
      pageStops twoPageFetch twoPageParse none 100
        (itemsThrough twoPageFetch twoPageParse 100 1 (k - 1)) (1 + (k - 1)) :=
  pagination_stop_spec twoPageFetch twoPageParse "octocat" none 3
    (.ok [sampleGist "g1" [], sampleGist "g2" []])
    [Event.request (get_url "octocat" 100 1), Event.request (get_url "octocat" 100 2)]
    (by rfl)

/-- C9: with `limit = 0` (and the first response present and well formed)
`list_gists` returns the empty list and issues exactly one page request:
`per_page` becomes 0, and after the first page the accumulated length is
already `≥ 0`, so the loop truncates to 0 items and breaks. -/
theorem limit_zero_empty_one_request (fetch : Fetch) (parse : ParseFn)
    (username : String) (fuel : Nat) (resp : PageResponse) (gists : List Gist)
    (hfuel : 1 ≤ fuel)
    (hfetch : fetch 0 1 = .ok resp)
    (hparse : parse resp.body = .ok gists) :
    ∃ tr, list_gists fetch parse username (some 0) fuel = some (.ok [], tr) ∧
      tr.countP isRequest = 1 := by
  obtain ⟨f, rfl⟩ : ∃ f, fuel = f + 1 := ⟨fuel - 1, by omega⟩
  refine ⟨Event.request (get_url username 0 1) ::
    (if should_continue (get_rate_limit resp.rateLimit resp.rateRemaining)
     then [] else [Event.sleep 3000]), ?_, ?_⟩
  · unfold list_gists
    rw [show (some 0 : Option Nat).getD 100 = 0 from rfl]
    rw [list_gists_loop]
    simp only [hfetch, hparse]
    rw [if_pos (Nat.zero_le _)]
    simp
  · by_cases hc : should_continue (get_rate_limit resp.rateLimit resp.rateRemaining) <;>
      simp [hc, isRequest, List.countP_cons]

/-- C9 witness: limit 0 against the one-page server returns the empty
list after exactly one request. -/
theorem limit_zero_witness :
    ∃ tr, list_gists throttledFetch emptyParse "octocat" (some 0) 1 =
        some (.ok [], tr) ∧ tr.countP isRequest = 1 :=
  limit_zero_empty_one_request throttledFetch emptyParse "octocat" 1
    ⟨none, none, none, "[]"⟩ [] (by omega) rfl rfl

/-- C6: when a listing body fails to parse, `list_gists` fails with
`JsonError` carrying the parser's error value (line/column position) and
the raw body of exactly the failing response; and if every response the
server can produce parses, the run never ends in a `JsonError`. -/
theorem parse_error_spec (fetch : Fetch) (parse : ParseFn) (username : String)
    (limit : Option Nat) (fuel : Nat) :
    (∀ res tr e body,
      list_gists fetch parse username limit fuel = some (res, tr) →
      res = .error (.jsonError e body) →
      ∃ p resp, fetch (limit.getD 100) p = .ok resp ∧
        parse resp.body = .error e ∧ body = resp.body) ∧
    (∀ res tr,
      (∀ p resp, fetch (limit.getD 100) p = .ok resp → ∃ gs, parse resp.body = .ok gs) →
      list_gists fetch parse username limit fuel = some (res, tr) →
      ∀ e body, res ≠ .error (.jsonError e body)) := by
  constructor
  · intro res tr e body h hres
    exact loop_jsonError fetch parse username limit (limit.getD 100)
      fuel 1 [] res tr e body h hres
  · intro res tr hgood h e body hres
    obtain ⟨p, resp, hf, hp, _⟩ := loop_jsonError fetch parse username limit
      (limit.getD 100) fuel 1 [] res tr e body h hres
    obtain ⟨gs, hgs⟩ := hgood p resp hf
    rw [hgs] at hp
    simp at hp

/-- C6 witness: the malformed body "oops" produces a `JsonError` carrying
it; the well-formed server never does. -/
theorem parse_error_witness :
    (∃ p resp, badBodyFetch 100 p = .ok resp ∧
      failingParse resp.body = .error ⟨1, 2, "expected value"⟩ ∧ "oops" = resp.body) ∧
    (Except.ok ([] : List Gist) : Except GistError (List Gist)) ≠
      .error (.jsonError ⟨1, 2, "x"⟩ "b") := by
  constructor
  · exact (parse_error_spec badBodyFetch failingParse "octocat" none 1).1
      (.error (.jsonError ⟨1, 2, "expected value"⟩ "oops"))
      [Event.request (get_url "octocat" 100 1)]
      ⟨1, 2, "expected value"⟩ "oops" (by rfl) rfl
  · exact (parse_error_spec throttledFetch emptyParse "octocat" none 1).2
      (.ok []) [Event.request (get_url "octocat" 100 1), Event.sleep 3000]
      (fun p resp h => ⟨[], rfl⟩) (by rfl) ⟨1, 2, "x"⟩ "b"

/-- C5 (amended): in a terminating run the 3000 ms throttle sleep occurs
in the page block of each processed response exactly when that response's
`x-ratelimit-remaining` header is absent, non-numeric, or zero
(`should_continue` false); the sleep precedes body processing and also
happens after the final response, whether or not another request
follows. -/
theorem throttle_pause_spec (fetch : Fetch) (parse : ParseFn) (username : String)
    (limit : Option Nat) (fuel : Nat) (res : Except GistError (List Gist))
    (tr : List Event)
    (h : list_gists fetch parse username limit fuel = some (res, tr)) :
    ∃ k, 1 ≤ k ∧
      tr = (List.range k).flatMap
        (fun i => pageBlock fetch username (limit.getD 100) (1 + i)) ∧
      ∀ i, i < k →
        (Event.sleep 3000 ∈ pageBlock fetch username (limit.getD 100) (1 + i) ↔
          ∃ resp, fetch (limit.getD 100) (1 + i) = .ok resp ∧
            should_continue (get_rate_limit resp.rateLimit resp.rateRemaining) = false) := by
  obtain ⟨k, hk, htr, _, _⟩ :=
    list_gists_loop_trace fetch parse username limit (limit.getD 100) fuel 1 [] res tr h
  exact ⟨k, hk, htr,
    fun i _ => sleep_mem_pageBlock fetch username (limit.getD 100) (1 + i)⟩

/-- C5 counterexample: a single-page run whose sole response lacks the
rate header sleeps 3000 ms *after* the final (and only) request — the
pause is not confined to the gap between two successive requests. -/
theorem throttle_pause_counterexample :
    list_gists throttledFetch emptyParse "octocat" none 1 =
      some (.ok [], [Event.request (get_url "octocat" 100 1), Event.sleep 3000]) ∧
    [Event.request (get_url "octocat" 100 1), Event.sleep 3000].getLast? =
      some (Event.sleep 3000) :=
  ⟨rfl, rfl⟩

/-- C5 witness: the amended pause characterization at the one-page
server. -/
theorem throttle_pause_witness :
    ∃ k, 1 ≤ k ∧
      [Event.request (get_url "octocat" 100 1), Event.sleep 3000] =
        (List.range k).flatMap
          (fun i => pageBlock throttledFetch "octocat" 100 (1 + i)) ∧
      ∀ i, i < k →
        (Event.sleep 3000 ∈ pageBlock throttledFetch "octocat" 100 (1 + i) ↔
          ∃ resp, throttledFetch 100 (1 + i) = .ok resp ∧
            should_continue (get_rate_limit resp.rateLimit resp.rateRemaining) = false) :=
  throttle_pause_spec throttledFetch emptyParse "octocat" none 1 (.ok [])
    [Event.request (get_url "octocat" 100 1), Event.sleep 3000] (by rfl)

lemma should_continue_50 : should_continue (get_rate_limit (some "5000") (some "50")) = true := by
  decide

lemma has_next_page_nextLink : has_next_page (some nextLink) = true := by
  decide

lemma has_next_page_none : has_next_page none = false := rfl

/-- Against the honest server with no limit, the loop starting at page
`p + 1` (having already accumulated the first `p` pages into `acc`)
returns `acc` followed by the rest of the listing, given enough fuel. -/
lemma honest_loop_none (parse : ParseFn) (enc : List Gist → String)
    (allItems : List Gist) (username : String) (per_page : Nat)
    (henc : ∀ page, parse (enc (pageSlice allItems per_page page)) =
      .ok (pageSlice allItems per_page page))
    (hpp : 1 ≤ per_page) :
    ∀ fuel p acc, allItems.length - p * per_page < fuel →
      ∃ tr, list_gists_loop (honestFetch enc allItems) parse username none per_page
          acc (p + 1) fuel =
        some (.ok (acc ++ allItems.drop (p * per_page)), tr) := by
  intro fuel
  induction fuel with
  | zero => intro p acc hlt; omega
  | succ fuel ihf =>
    intro p acc hlt
    have hsm : (p + 1) * per_page = p * per_page + per_page := Nat.succ_mul p per_page
    have hslice1 : pageSlice allItems per_page (p + 1) =
        (allItems.drop (p * per_page)).take per_page := by
      unfold pageSlice
      rw [Nat.add_sub_cancel]
    rw [list_gists_loop]
    simp only [honestFetch, henc]
    by_cases hlt2 : (p + 1) * per_page < allItems.length
    · simp only [if_pos hlt2, if_pos has_next_page_nextLink]
      obtain ⟨tr2, hrec⟩ := ihf (p + 1) (acc ++ pageSlice allItems per_page (p + 1))
        (by omega)
      rw [hrec, Option.map_some']
      have hjoin : (acc ++ pageSlice allItems per_page (p + 1)) ++
          allItems.drop ((p + 1) * per_page) = acc ++ allItems.drop (p * per_page) := by
        rw [List.append_assoc]
        refine congrArg (acc ++ ·) ?_
        rw [hslice1, hsm, ← List.drop_drop]
        exact List.take_append_drop per_page (allItems.drop (p * per_page))
      rw [hjoin]
      exact ⟨_, rfl⟩
    · have hnonext : ¬ (has_next_page none = true) := by
        rw [has_next_page_none]
        exact Bool.false_ne_true
      simp only [if_neg hlt2, if_neg hnonext]
      have hall : pageSlice allItems per_page (p + 1) = allItems.drop (p * per_page) := by
        rw [hslice1]
        apply List.take_of_length_le
        rw [List.length_drop]
        omega
      rw [hall]
      exact ⟨_, rfl⟩

/-- C1: against an honest paginated server over the listing `allItems`
(continuation marker present exactly while items remain, slices honouring
`per_page`, bodies parsing back to the slices), `list_gists` returns
`allItems.take l` when `limit = some l` — a prefix of the server order of
length `min l allItems.length` — and the whole listing `allItems`, in
order, when `limit = none`. -/
theorem list_gists_honest_min (parse : ParseFn) (enc : List Gist → String)
    (allItems : List Gist) (username : String) (limit : Option Nat)
    (henc : ∀ page, parse (enc (pageSlice allItems (limit.getD 100) page)) =
      .ok (pageSlice allItems (limit.getD 100) page)) :
    ∃ tr, list_gists (honestFetch enc allItems) parse username limit
        (allItems.length + 1) =
      some (.ok (match limit with
        | some l => allItems.take l
        | none => allItems), tr) ∧
      (match limit with
        | some l => (allItems.take l).length = min l allItems.length
        | none => True) := by
  cases limit with
  | none =>
    obtain ⟨tr, htr⟩ := honest_loop_none parse enc allItems username 100
      henc (by omega) (allItems.length + 1) 0 [] (by omega)
    refine ⟨tr, ?_, trivial⟩
    unfold list_gists
    simpa using htr
  | some l =>
    have henc2 : ∀ page, parse (enc (pageSlice allItems l page)) =
        .ok (pageSlice allItems l page) := henc
    have hslice1 : pageSlice allItems l 1 = allItems.take l := by
      unfold pageSlice
      simp
    have henc3 : parse (enc (allItems.take l)) = .ok (allItems.take l) := by
      have h1 := henc2 1
      rw [hslice1] at h1
      exact h1
    unfold list_gists
    rw [show (some l : Option Nat).getD 100 = l from rfl]
    rw [list_gists_loop]
    simp only [honestFetch, hslice1, henc3, List.nil_append, one_mul]
    by_cases hl : l ≤ allItems.length
    · have hcond : l ≤ (allItems.take l).length := by
        rw [List.length_take]
        omega
      simp only [if_pos hcond, List.take_take, min_self]
      refine ⟨_, rfl, ?_⟩
      simp [List.length_take]
    · have hcond : ¬ l ≤ (allItems.take l).length := by
        rw [List.length_take]
        omega
      have hnonext : ¬ (has_next_page none = true) := by
        rw [has_next_page_none]
        exact Bool.false_ne_true
      simp only [if_neg hcond, if_neg (show ¬ l < allItems.length by omega),
        if_neg hnonext]
      refine ⟨_, rfl, ?_⟩
      simp [List.length_take]

/-- C1 witness: the honest one-gist server with `limit = 1` returns
exactly that gist. -/
theorem honest_min_witness :
    ∃ tr, list_gists (honestFetch oneGistEnc [sampleGist "g1" []]) oneGistParse
        "octocat" (some 1) ([sampleGist "g1" []].length + 1) =
      some (.ok (match (some 1 : Option Nat) with
        | some l => [sampleGist "g1" []].take l
        | none => [sampleGist "g1" []]), tr) ∧
      (match (some 1 : Option Nat) with
        | some l => ([sampleGist "g1" []].take l).length =
            min l [sampleGist "g1" []].length
        | none => True) :=
  list_gists_honest_min oneGistParse oneGistEnc [sampleGist "g1" []] "octocat" (some 1)
    (by
      intro page
      simp only [Option.getD_some]
      match page with
      | 0 => rfl
      | 1 => rfl
      | n + 2 =>
        have hdrop : pageSlice [sampleGist "g1" []] 1 (n + 2) = [] := by
          unfold pageSlice
          simp
        rw [hdrop]
        rfl)

lemma string_append_cancel_left (a b c : String) (h : a ++ b = a ++ c) : b = c := by
  have hd := congrArg String.data h
  rw [String.data_append, String.data_append] at hd
  exact String.ext (List.append_cancel_left hd)

lemma path_ne (base fn1 fn2 : String) (h : fn1 ≠ fn2) :
    base ++ "/" ++ fn1 ≠ base ++ "/" ++ fn2 := fun he =>
  h (string_append_cancel_left (base ++ "/") fn1 fn2 he)

lemma fsRead_fsWrite_self (fs : FsState) (p c : String) :
    fsRead (fsWrite fs p c) p = some c := by
  unfold fsRead fsWrite
  rw [List.find?_cons_of_pos _ (by simp)]
  rfl

lemma find_filter_ne (p q : String) (h : p ≠ q) :
    ∀ l : List (String × String),
      (l.filter (fun pc => pc.1 != q)).find? (fun pc => pc.1 == p) =
        l.find? (fun pc => pc.1 == p) := by
  intro l
  induction l with
  | nil => rfl
  | cons a rest ihr =>
    by_cases ha : a.1 = q
    · rw [List.filter_cons_of_neg (by simp [ha])]
      rw [List.find?_cons_of_neg _ (by
        simp only [beq_iff_eq]
        rw [ha]
        exact fun h2 => h h2.symm)]
      exact ihr
    · rw [List.filter_cons_of_pos (by simp [ha])]
      by_cases hp : a.1 = p
      · rw [List.find?_cons_of_pos _ (by simp [hp]),
          List.find?_cons_of_pos _ (by simp [hp])]
      · rw [List.find?_cons_of_neg _ (by simp [hp]),
          List.find?_cons_of_neg _ (by simp [hp])]
        exact ihr

lemma fsRead_fsWrite_ne (fs : FsState) (p q c : String) (h : p ≠ q) :
    fsRead (fsWrite fs q c) p = fsRead fs p := by
  unfold fsRead fsWrite
  rw [List.find?_cons_of_neg _ (by simp; exact fun h2 => absurd h2.symm h)]
  rw [find_filter_ne p q h]

/-- `download_files` never touches a path outside `base ++ "/" ++ fn` for
the filenames `fn` it is given. -/
lemma download_files_read_outside (fetchRaw : RawFetch) (writeErr : WriteErr)
    (base : String) :
    ∀ (files : List (String × GistFile)) (fs : FsState) (p : String),
      (∀ fn, fn ∈ files.map Prod.fst → p ≠ base ++ "/" ++ fn) →
      fsRead (download_files fetchRaw writeErr base files fs).snd p = fsRead fs p := by
  intro files
  induction files with
  | nil => intro fs p hout; rfl
  | cons a rest ihr =>
    intro fs p hout
    obtain ⟨filename, file⟩ := a
    rw [download_files]
    cases hf : fetchRaw file.raw_url with
    | error e => rfl
    | ok response =>
      dsimp only []
      cases hw : writeErr (base ++ "/" ++ filename) with
      | some e => simp only [hw]
      | none =>
        simp only [hw]
        rw [ihr _ p (fun fn hfn => hout fn (by simp [hfn]))]
        exact fsRead_fsWrite_ne fs p (base ++ "/" ++ filename) response
          (hout filename (by simp))

/-- If every file before `bad` downloads and writes fine but `bad` itself
fails (fetch or write), the per-file loop returns an error and the final
filesystem still contains every file written before the failure. -/
lemma download_files_fail_keeps (fetchRaw : RawFetch) (writeErr : WriteErr)
    (base : String) (bad : String × GistFile) (post : List (String × GistFile)) :
    ∀ (pre : List (String × GistFile)) (fs : FsState),
      ((pre ++ bad :: post).map Prod.fst).Nodup →
      (∀ fn f, (fn, f) ∈ pre → (∃ c, fetchRaw f.raw_url = .ok c) ∧
        writeErr (base ++ "/" ++ fn) = none) →
      ((∃ e, fetchRaw bad.2.raw_url = .error e) ∨
        ((∃ c, fetchRaw bad.2.raw_url = .ok c) ∧
          ∃ e, writeErr (base ++ "/" ++ bad.1) = some e)) →
      ∃ e2 fs1,
        download_files fetchRaw writeErr base (pre ++ bad :: post) fs = (.error e2, fs1) ∧
        ∀ fn f, (fn, f) ∈ pre → ∃ c, fetchRaw f.raw_url = .ok c ∧
          fsRead fs1 (base ++ "/" ++ fn) = some c := by
  intro pre
  induction pre with
  | nil =>
    intro fs hnodup hpre hbad
    obtain ⟨bn, bf⟩ := bad
    rw [List.nil_append, download_files]
    rcases hbad with ⟨e, hfe⟩ | ⟨⟨c, hfc⟩, e, hwe⟩
    · rw [hfe]
      exact ⟨.requestError e, fs, rfl, fun fn f hmem => absurd hmem (List.not_mem_nil _)⟩
    · rw [hfc]
      simp only [hwe]
      exact ⟨.ioError e, fs, rfl, fun fn f hmem => absurd hmem (List.not_mem_nil _)⟩
  | cons a pre2 ihp =>
    intro fs hnodup hpre hbad
    obtain ⟨fn0, f0⟩ := a
    obtain ⟨⟨c0, hfc0⟩, hw0⟩ := hpre fn0 f0 (by simp)
    rw [List.cons_append, List.map_cons, List.nodup_cons] at hnodup
    rw [List.cons_append, download_files, hfc0]
    simp only [hw0]
    obtain ⟨e2, fs1, heq, hkeep⟩ := ihp (fsWrite fs (base ++ "/" ++ fn0) c0)
      hnodup.2 (fun fn f hmem => hpre fn f (by simp [hmem])) hbad
    refine ⟨e2, fs1, heq, ?_⟩
    intro fn f hmem
    rcases List.mem_cons.mp hmem with hhead | htail
    · injection hhead with h1 h2
      subst h1
      subst h2
      refine ⟨c0, hfc0, ?_⟩
      have hro := download_files_read_outside fetchRaw writeErr base
        (pre2 ++ bad :: post) (fsWrite fs (base ++ "/" ++ fn) c0)
        (base ++ "/" ++ fn)
        (fun fn2 hfn2 => path_ne base fn fn2
          (fun hEq => hnodup.1 (by rw [hEq]; exact hfn2)))
      rw [heq] at hro
      rw [fsRead_fsWrite_self] at hro
      exact hro
    · exact hkeep fn f htail

/-- C7: if the fetch or write of a single member file fails (all files
before it succeeding), `download_gist` reports the whole item as failed,
and every file of the item written before the failure is still on disk in
the final state — no rollback. -/
theorem download_failure_no_rollback
    (fetchRaw : RawFetch) (writeErr : WriteErr) (dirErr : DirErr)
    (gist : Gist) (output_path : String) (fs : FsState)
    (pre : List (String × GistFile)) (bad : String × GistFile)
    (post : List (String × GistFile))
    (hfiles : gist.files = pre ++ bad :: post)
    (hnodup : (gist.files.map Prod.fst).Nodup)
    (hdir : dirErr (output_path ++ "/" ++ gist.id) = none)
    (hpre : ∀ fn f, (fn, f) ∈ pre → (∃ c, fetchRaw f.raw_url = .ok c) ∧
      writeErr (output_path ++ "/" ++ gist.id ++ "/" ++ fn) = none)
    (hbad : (∃ e, fetchRaw bad.2.raw_url = .error e) ∨
      ((∃ c, fetchRaw bad.2.raw_url = .ok c) ∧
        ∃ e, writeErr (output_path ++ "/" ++ gist.id ++ "/" ++ bad.1) = some e)) :
    ∃ e fs1,
      download_gist fetchRaw writeErr dirErr gist output_path fs = (.error e, fs1) ∧
      ∀ fn f, (fn, f) ∈ pre → ∃ c, fetchRaw f.raw_url = .ok c ∧
        fsRead fs1 (output_path ++ "/" ++ gist.id ++ "/" ++ fn) = some c := by
  unfold download_gist
  simp only [hdir]
  rw [hfiles]
  exact download_files_fail_keeps fetchRaw writeErr (output_path ++ "/" ++ gist.id)
    bad post pre (create_dir_all fs (output_path ++ "/" ++ gist.id))
    (hfiles ▸ hnodup) hpre hbad

/-- C7 witness: a gist whose second file's fetch fails is reported failed
while its first file stays on disk. -/
theorem download_failure_witness :
    ∃ e fs1,
      download_gist (rawFetchFailFor "bad") noWriteErr noDirErr
        (sampleGist "g3" [("x.txt", sampleFile "x.txt"), ("y.txt", sampleFile "bad")])
        "gists" emptyFs = (.error e, fs1) ∧
      ∀ fn f, (fn, f) ∈ [("x.txt", sampleFile "x.txt")] → ∃ c,
        rawFetchFailFor "bad" f.raw_url = .ok c ∧
        fsRead fs1 ("gists" ++ "/" ++ "g3" ++ "/" ++ fn) = some c :=
  download_failure_no_rollback (rawFetchFailFor "bad") noWriteErr noDirErr
    (sampleGist "g3" [("x.txt", sampleFile "x.txt"), ("y.txt", sampleFile "bad")])
    "gists" emptyFs
    [("x.txt", sampleFile "x.txt")] ("y.txt", sampleFile "bad") []
    rfl (by decide) rfl
    (by
      intro fn f hmem
      rw [List.mem_singleton] at hmem
      injection hmem with h1 h2
      subst h1
      subst h2
      exact ⟨⟨"contents of https://gist.example/raw/x.txt", rfl⟩, rfl⟩)
    (Or.inl ⟨"connection reset", rfl⟩)

lemma download_files_fst_indep (fetchRaw : RawFetch) (writeErr : WriteErr)
    (base : String) :
    ∀ (files : List (String × GistFile)) (fs fs2 : FsState),
      (download_files fetchRaw writeErr base files fs).fst =
        (download_files fetchRaw writeErr base files fs2).fst := by
  intro files
  induction files with
  | nil => intro fs fs2; rfl
  | cons a rest ihr =>
    intro fs fs2
    obtain ⟨filename, file⟩ := a
    rw [download_files, download_files]
    cases hf : fetchRaw file.raw_url with
    | error e => rfl
    | ok response =>
      dsimp only []
      cases hw : writeErr (base ++ "/" ++ filename) with
      | some e => simp only [hw]
      | none =>
        simp only [hw]
        exact ihr _ _

lemma download_gist_fst_indep (fetchRaw : RawFetch) (writeErr : WriteErr)
    (dirErr : DirErr) (gist : Gist) (output_path : String) (fs fs2 : FsState) :
    (download_gist fetchRaw writeErr dirErr gist output_path fs).fst =
      (download_gist fetchRaw writeErr dirErr gist output_path fs2).fst := by
  unfold download_gist
  dsimp only []
  cases hd : dirErr (output_path ++ "/" ++ gist.id) with
  | some e => simp only [hd]
  | none =>
    simp only [hd]
    exact download_files_fst_indep fetchRaw writeErr _ gist.files _ _

lemma download_task_snd (fetchRaw : RawFetch) (writeErr : WriteErr)
    (dirErr : DirErr) (folder : String) (g : Gist) (fs : FsState) :
    (download_task fetchRaw writeErr dirErr folder g fs).snd =
      item_event fetchRaw writeErr dirErr folder g := by
  unfold download_task item_event
  have hfst := download_gist_fst_indep fetchRaw writeErr dirErr g folder fs emptyFs
  cases hdg : download_gist fetchRaw writeErr dirErr g folder fs with
  | mk r fs1 =>
    cases hdg2 : download_gist fetchRaw writeErr dirErr g folder emptyFs with
    | mk r2 fs2 =>
      rw [hdg, hdg2] at hfst
      dsimp only [] at hfst
      subst hfst
      cases r <;> rfl

lemma handle_download_tasks_snd (fetchRaw : RawFetch) (writeErr : WriteErr)
    (dirErr : DirErr) (folder : String) :
    ∀ (gists : List Gist) (fs : FsState) (evs : List DlEvent),
      (gists.foldl
        (fun (acc : FsState × List DlEvent) g =>
          let step := download_task fetchRaw writeErr dirErr folder g acc.1
          (step.1, acc.2 ++ [step.2]))
        (fs, evs)).snd =
      evs ++ gists.map (item_event fetchRaw writeErr dirErr folder) := by
  intro gists
  induction gists with
  | nil => intro fs evs; simp
  | cons g rest ihg =>
    intro fs evs
    rw [List.foldl_cons, List.map_cons]
    dsimp only []
    rw [download_task_snd, ihg]
    simp

/-- The log stream of one batch run: one outcome event per gist, in spawn
order, then the completion message with the pre-computed file total. -/
lemma handle_download_snd (fetchRaw : RawFetch) (writeErr : WriteErr)
    (dirErr : DirErr) (folder : String) (gists : List Gist) (fs : FsState) :
    (handle_download fetchRaw writeErr dirErr folder gists fs).snd =
      gists.map (item_event fetchRaw writeErr dirErr folder) ++
        [.complete ((gists.map (fun g => g.files.length)).sum) folder] := by
  unfold handle_download
  dsimp only []
  rw [handle_download_tasks_snd]
  simp

lemma isOutcome_item_event (fetchRaw : RawFetch) (writeErr : WriteErr)
    (dirErr : DirErr) (folder : String) (g : Gist) :
    isOutcome (item_event fetchRaw writeErr dirErr folder g) = true := by
  unfold item_event
  cases (download_gist fetchRaw writeErr dirErr g folder emptyFs).fst <;> rfl

/-- C8: the batch emits exactly one terminal outcome event per listed
gist, in spawn order, followed by the completion message; each item's
outcome is `item_event` of that item alone — a function of the item's own
urls and injected failures — so one item's failure neither aborts nor
changes the outcome of any sibling, and the coordinator never
short-circuits before every task has reached a terminal state. -/
theorem batch_isolation (fetchRaw : RawFetch) (writeErr : WriteErr)
    (dirErr : DirErr) (folder : String) (gists : List Gist) (fs : FsState) :
    (handle_download fetchRaw writeErr dirErr folder gists fs).snd =
      gists.map (item_event fetchRaw writeErr dirErr folder) ++
        [.complete ((gists.map (fun g => g.files.length)).sum) folder] :=
  handle_download_snd fetchRaw writeErr dirErr folder gists fs

/-- C4 (amended): after every batch run the coordinator reports one
outcome event per item (`countP isOutcome` equals the item count) and
finally a single completion message whose number is the total member-file
count of *all* listed gists, computed before any download started —
failures do not reduce it, and no `{total, succeeded, failed}` aggregate
exists anywhere in the report stream. -/
theorem batch_report (fetchRaw : RawFetch) (writeErr : WriteErr)
    (dirErr : DirErr) (folder : String) (gists : List Gist) (fs : FsState) :
    ((handle_download fetchRaw writeErr dirErr folder gists fs).snd).getLast? =
      some (.complete ((gists.map (fun g => g.files.length)).sum) folder) ∧
    ((handle_download fetchRaw writeErr dirErr folder gists fs).snd).countP isOutcome =
      gists.length := by
  rw [handle_download_snd]
  constructor
  · exact List.getLast?_concat _
  · rw [List.countP_append]
    have h1 : (gists.map (item_event fetchRaw writeErr dirErr folder)).countP isOutcome =
        (gists.map (item_event fetchRaw writeErr dirErr folder)).length :=
      List.countP_eq_length.mpr (fun e he => by
        obtain ⟨g, hg, rfl⟩ := List.mem_map.mp he
        exact isOutcome_item_event fetchRaw writeErr dirErr folder g)
    rw [h1, List.length_map]
    simp [isOutcome, List.countP_cons]

/-- C4 counterexample (spec scenario 4): five gists, the third failing,
with 7 member files overall.  The run's only aggregate report is
`complete 7 "gists"` — the pre-computed file total — although 1 item
failed and 4 succeeded; no `{total: 5, succeeded: 4, failed: 1}` summary
is reported.  The successful items' files are on disk (shown for g1). -/
theorem batch_report_counterexample :
    ((handle_download (rawFetchFailFor "bad") noWriteErr noDirErr "gists"
        fiveGists emptyFs).snd).getLast? = some (.complete 7 "gists") ∧
    ((handle_download (rawFetchFailFor "bad") noWriteErr noDirErr "gists"
        fiveGists emptyFs).snd).countP
      (fun e => match e with | .downloadFailed _ _ => true | _ => false) = 1 ∧
    ((handle_download (rawFetchFailFor "bad") noWriteErr noDirErr "gists"
        fiveGists emptyFs).snd).countP
      (fun e => match e with | .downloaded _ => true | _ => false) = 4 ∧
    fiveGists.length = 5 ∧
    fsRead (handle_download (rawFetchFailFor "bad") noWriteErr noDirErr "gists"
        fiveGists emptyFs).fst ("gists" ++ "/" ++ "g1" ++ "/" ++ "a.txt") =
      some ("contents of " ++ ("https://gist.example/raw/" ++ "a.txt")) ∧
    (7 : Nat) ≠ 5 ∧ (7 : Nat) ≠ 4 ∧ (7 : Nat) ≠ 1 := by
  refine ⟨rfl, rfl, rfl, rfl, rfl, by omega, by omega, by omega⟩

lemma countP_set (p : TaskPhase → Bool) :
    ∀ (l : List TaskPhase) (i : Nat) (x y : TaskPhase),
      l.get? i = some x →
      (l.set i y).countP p + (if p x then 1 else 0) =
        l.countP p + (if p y then 1 else 0) := by
  intro l
  induction l with
  | nil => intro i x y h; simp at h
  | cons a rest ihl =>
    intro i x y h
    cases i with
    | zero =>
      have h2 : some a = some x := h
      injection h2 with h3
      subst h3
      simp only [List.set, List.countP_cons]
      omega
    | succ i2 =>
      have h2 : rest.get? i2 = some x := h
      have := ihl i2 x y h2
      simp only [List.set, List.countP_cons]
      omega

/-- The semaphore invariant: free permits plus held permits always equal
the capacity, and (when the semaphore cannot be closed) no task is ever
in its body without holding a permit. -/
lemma reachable_inv (canFail : Bool) (C n : Nat) (s : BatchState)
    (h : Reachable canFail C n s) :
    s.available + permitHolders s = C ∧
    (canFail = false → ∀ t ∈ s.tasks, t ≠ TaskPhase.running false) := by
  induction h with
  | refl =>
    constructor
    · have hz : permitHolders (initState C n) = 0 := by
        unfold permitHolders initState
        rw [List.countP_eq_zero.mpr]
        intro t ht
        rw [List.eq_of_mem_replicate ht]
        decide
      rw [hz]
      rfl
    · intro hcf t ht
      rw [List.eq_of_mem_replicate ht]
      intro hEq
      cases hEq
  | @tail mid fin h1 hstep ih =>
    obtain ⟨ih1, ih2⟩ := ih
    cases hstep with
    | acquire i s0 hi hav =>
      constructor
      · have hc := countP_set (fun t => t == TaskPhase.running true) mid.tasks i
          TaskPhase.pending (TaskPhase.running true) hi
        simp only [show (TaskPhase.pending == TaskPhase.running true) = false from rfl,
          show (TaskPhase.running true == TaskPhase.running true) = true from rfl,
          if_false, if_true, Bool.false_eq_true] at hc
        unfold permitHolders at ih1 ⊢
        simp only [] at hc ⊢
        omega
      · intro hcf t ht
        rcases List.mem_or_eq_of_mem_set ht with h1 | h1
        · exact ih2 hcf t h1
        · subst h1
          intro hEq
          cases hEq
    | acquireFail i s0 hfail hi =>
      constructor
      · have hc := countP_set (fun t => t == TaskPhase.running true) mid.tasks i
          TaskPhase.pending (TaskPhase.running false) hi
        simp only [show (TaskPhase.pending == TaskPhase.running true) = false from rfl,
          show (TaskPhase.running false == TaskPhase.running true) = false from rfl,
          if_false, Bool.false_eq_true] at hc
        unfold permitHolders at ih1 ⊢
        simp only [] at hc ⊢
        omega
      · intro hcf
        rw [hcf] at hfail
        cases hfail
    | finish i b s0 hi =>
      constructor
      · have hc := countP_set (fun t => t == TaskPhase.running true) mid.tasks i
          (TaskPhase.running b) TaskPhase.done hi
        simp only [show (TaskPhase.done == TaskPhase.running true) = false from rfl,
          if_false, Bool.false_eq_true] at hc
        unfold permitHolders at ih1 ⊢
        simp only [] at hc ⊢
        cases b with
        | true =>
          simp only [show (TaskPhase.running true == TaskPhase.running true) = true
            from rfl, if_true] at hc
          simp only [if_true]
          omega
        | false =>
          simp only [show (TaskPhase.running false == TaskPhase.running true) = false
            from rfl, if_false, Bool.false_eq_true] at hc
          simp only [Bool.false_eq_true, if_false]
          omega
      · intro hcf t ht
        rcases List.mem_or_eq_of_mem_set ht with h1 | h1
        · exact ih2 hcf t h1
        · subst h1
          intro hEq
          cases hEq

lemma runningCount_eq_permitHolders (s : BatchState)
    (h : ∀ t ∈ s.tasks, t ≠ TaskPhase.running false) :
    runningCount s = permitHolders s := by
  obtain ⟨tasks, avail⟩ := s
  unfold runningCount permitHolders
  simp only [] at h ⊢
  induction tasks with
  | nil => rfl
  | cons a rest ihl =>
    simp only [List.countP_cons]
    have hrest := ihl (fun t ht => h t (List.mem_cons_of_mem a ht))
    rw [hrest]
    cases a with
    | pending => rfl
    | done => rfl
    | running b =>
      cases b with
      | true => rfl
      | false => exact absurd rfl (h (TaskPhase.running false) (List.mem_cons_self _ _))

/-- C3: in every reachable state of a batch run with a semaphore of
capacity `C` that is never closed (as in the program, where acquisition
can only succeed), at most `C` tasks are inside their download bodies at
once, and every such task holds exactly one permit — taken before any
network or filesystem work and returned by the `finish` step on exit. -/
theorem semaphore_bounds_concurrency (C n : Nat) (s : BatchState)
    (h : Reachable false C n s) :
    runningCount s ≤ C ∧ ∀ t ∈ s.tasks, t ≠ TaskPhase.running false := by
  obtain ⟨h1, h2⟩ := reachable_inv false C n s h
  have h3 := h2 rfl
  refine ⟨?_, h3⟩
  rw [runningCount_eq_permitHolders s h3]
  omega

/-- C3 witness: with capacity 2 and 3 tasks, after two acquisitions both
running tasks hold permits and the bound 2 is respected. -/
theorem semaphore_bounds_witness :
    runningCount ⟨[TaskPhase.running true, TaskPhase.running true, TaskPhase.pending], 0⟩ ≤ 2 ∧
    ∀ t ∈ ([TaskPhase.running true, TaskPhase.running true, TaskPhase.pending] :
        List TaskPhase), t ≠ TaskPhase.running false :=
  semaphore_bounds_concurrency 2 3
    ⟨[TaskPhase.running true, TaskPhase.running true, TaskPhase.pending], 0⟩
    (Relation.ReflTransGen.tail
      (Relation.ReflTransGen.tail Relation.ReflTransGen.refl
        (Step.acquire 0 (initState 2 3) rfl (by decide)))
      (Step.acquire 1 ⟨[TaskPhase.running true, TaskPhase.pending, TaskPhase.pending], 1⟩
        rfl (by decide)))

/-- C10: the task body binds the `acquire` result without inspecting it.
Since the program never closes the semaphore, acquisition cannot fail, so
in every reachable state each running task holds exactly one permit,
released by the finish step (which a permit-holding task can always
take, returning the permit).  But were an acquire error possible
(`canFail = true`, semaphore closed), a state is reachable in which a
task is running its download without holding any permit. -/
theorem acquire_result_unchecked (C n : Nat) :
    (∀ s, Reachable false C n s → ∀ t ∈ s.tasks, t ≠ TaskPhase.running false) ∧
    (∃ s, Reachable true 1 1 s ∧ TaskPhase.running false ∈ s.tasks) ∧
    (∀ (s : BatchState) (i : Nat), s.tasks.get? i = some (TaskPhase.running true) →
      Step false s ⟨s.tasks.set i TaskPhase.done, s.available + 1⟩) := by
  refine ⟨?_, ?_, ?_⟩
  · intro s hs
    exact (reachable_inv false C n s hs).2 rfl
  · refine ⟨⟨[TaskPhase.running false], 1⟩, ?_, by simp⟩
    exact Relation.ReflTransGen.tail Relation.ReflTransGen.refl
      (Step.acquireFail 0 (initState 1 1) rfl rfl)
  · intro s i hi
    exact Step.finish i true s hi

/-- C10 witness: the no-permitless-download invariant at the initial
state of a capacity-2 batch, together with the concrete
closed-semaphore trace that does download without a permit. -/
theorem acquire_result_unchecked_witness :
    (∀ t ∈ (initState 2 1).tasks, t ≠ TaskPhase.running false) ∧
    (∃ s, Reachable true 1 1 s ∧ TaskPhase.running false ∈ s.tasks) :=
  ⟨(acquire_result_unchecked 2 1).1 (initState 2 1) Relation.ReflTransGen.refl,
   (acquire_result_unchecked 2 1).2.1⟩

end LocalGist
